import Mathlib

set_option maxRecDepth 8000

/-!
Shallow embedding of the credential-verification and reset-token core of the
`cot-basic-auth` repository (files `src/utils.rs`, `src/auth.rs`,
`src/forms/forgot_password.rs`).

Conventions:
* Rust `u64`/`i64` become `Nat`/`Int` with explicit range conditions where the
  machine width matters (`2 ^ 64`, `2 ^ 63`).
* A Rust function that can panic is modelled with an `Option` result where
  `none` marks the panic (`.unwrap()` on an `Err`, `unreachable!(..)`).
* The external `cot` / `hmac` collaborators (HMAC-SHA256, the `Debug` format of
  `PasswordHash`, password verification) are opaque to this crate; they are
  modelled as fields of a `CotEnv` record, so every theorem is explicit about
  which properties of the collaborators it uses.
-/

namespace BasicAuth

/-! ### Digit characters

`b36DigitChar` is the digit alphabet used both by `num_bigint`'s
`to_str_radix` (lowercase `0-9a-z`) and by `hex::encode` (its restriction to
values below 16). -/

/-- Digit character for a value `d < 36`: `0-9` then `a-z` (lowercase), as
produced by `BigUint::to_str_radix` and `hex::encode`. -/
def b36DigitChar (d : Nat) : Char :=
  if d < 10 then Char.ofNat (48 + d) else Char.ofNat (87 + d)

/-- Byte-level digit value of a character: `0-9`, `a-z`, `A-Z` (the mapping
shared by `num_bigint::BigUint::from_str_radix` and `char::to_digit(36)`).
Returns `none` for any other character. -/
def charDigitVal (c : Char) : Option Nat :=
  if 48 ≤ c.toNat ∧ c.toNat ≤ 57 then some (c.toNat - 48)
  else if 97 ≤ c.toNat ∧ c.toNat ≤ 122 then some (c.toNat - 97 + 10)
  else if 65 ≤ c.toNat ∧ c.toNat ≤ 90 then some (c.toNat - 65 + 10)
  else none

/-! ### Base36 codec, from `src/utils.rs` -/

/-- Little-endian base-36 digits of `n`, computed with explicit fuel so that
the definition is structurally recursive (and hence kernel-evaluable);
`natDigits36 fuel n = Nat.digits 36 n` whenever `n ≤ fuel`. -/
def natDigits36 : Nat → Nat → List Nat
  | 0, _ => []
  | fuel + 1, n => if n = 0 then [] else n % 36 :: natDigits36 fuel (n / 36)

/-- Model of `Base36::encode` (`src/utils.rs`):
`BigUint::from(num).to_str_radix(36)` — shortest lowercase base-36 text,
`"0"` for zero. The digit list is little-endian, hence the `reverse`. -/
def Base36.encode (n : Nat) : String :=
  if n = 0 then "0" else ⟨(natDigits36 n n).reverse.map b36DigitChar⟩

/-- Error type of `num_bigint` parsing (`ParseBigIntError`): empty input or an
invalid digit. -/
inductive ParseBigIntError where
  | empty
  | invalid
deriving DecidableEq, Repr

deriving instance DecidableEq for Except

/-- Digit-scanning loop of `BigUint::from_str_radix` for radix 36: underscores
are skipped, letters are case-insensitive, any other character is an error.
The accumulator is an unbounded natural (the arbitrary-precision `BigUint`). -/
def parseB36Core : List Char → Nat → Except ParseBigIntError Nat
  | [], acc => .ok acc
  | c :: rest, acc =>
    if c = '_' then parseB36Core rest acc
    else
      match charDigitVal c with
      | some d => if d < 36 then parseB36Core rest (acc * 36 + d) else .error .invalid
      | none => .error .invalid

/-- The leading-`'+'` stripping of `BigUint::from_str_radix`: a single leading
`'+'` is dropped unless it is followed by another `'+'`. -/
def plusStrip (l : List Char) : List Char :=
  match l with
  | [] => []
  | c :: rest =>
    if c = '+' then (if rest.head? = some '+' then c :: rest else rest) else c :: rest

/-- Model of `BigUint::from_str_radix(s, 36)`: strip one leading `'+'`, reject
the empty string and a leading underscore, then scan the digits. -/
def fromStrRadix36 (s : String) : Except ParseBigIntError Nat :=
  match plusStrip s.data with
  | [] => .error .empty
  | c :: rest => if c = '_' then .error .invalid else parseB36Core (c :: rest) 0

/-- Model of `Base36::decode` (`src/utils.rs`):
`Ok(BigUint::from_str_radix(s, 36)?.to_u64())` — parse error propagates as
`Err`, and `to_u64` narrows, giving `none` when the value does not fit `u64`. -/
def Base36.decode (s : String) : Except ParseBigIntError (Option Nat) :=
  (fromStrRadix36 s).map fun v => if v < 2 ^ 64 then some v else none

/-! ### The strict digit fold used by `i64::from_str_radix` -/

/-- Digit-accumulation loop of Rust's `i64::from_str_radix` (no underscores,
each character must be a radix-36 digit). `none` marks a parse error. -/
def strictValAux : Nat → List Char → Option Nat
  | acc, [] => some acc
  | acc, c :: rest =>
    match charDigitVal c with
    | some d => strictValAux (acc * 36 + d) rest
    | none => none

/-- Digit part of `i64::from_str_radix` after the sign: at least one digit,
then checked accumulation; the checked `i64` arithmetic fails exactly when the
full-precision value leaves the `i64` range. -/
def i64Digits (neg : Bool) (ds : List Char) : Option Int :=
  match ds with
  | [] => none
  | _ :: _ =>
    match strictValAux 0 ds with
    | none => none
    | some v =>
      if neg then
        if (v : Int) ≤ 2 ^ 63 then some (-(v : Int)) else none
      else
        if (v : Int) ≤ 2 ^ 63 - 1 then some (v : Int) else none

/-- Model of `i64::from_str_radix(s, 36)`: optional single sign character,
then a nonempty digit run with overflow checking. `none` models `Err`. -/
def i64FromStrRadix36 (s : String) : Option Int :=
  match s.data with
  | [] => none
  | c :: rest =>
    if c = '+' then i64Digits false rest
    else if c = '-' then i64Digits true rest
    else i64Digits false (c :: rest)

/-! ### Data model, from `src/auth.rs` -/

/-- `cot::db::Auto<i64>`: a primary key that is either still unassigned
(`Auto`) or fixed by the store (`Fixed(id)`). -/
inductive Auto where
  | auto
  | fixed (id : Int)
deriving DecidableEq, Repr

/-- The `User` model of `src/auth.rs`: primary key, unique username
(`LimitedString<254>`), display name, opaque password-hash text, email. -/
structure User where
  id : Auto
  username : String
  name : String
  password : String
  email : String
deriving DecidableEq, Repr

/-- `cot::auth::PasswordVerificationResult`: `Ok`, `OkObsolete(new_hash)`, or
`Invalid`. -/
inductive PasswordVerificationResult where
  | ok
  | okObsolete (newHash : String)
  | invalid
deriving DecidableEq, Repr

/-- The external collaborators (the `cot` framework and the `hmac`/`sha2`
crates) that the core calls into, kept opaque:
* `hmacSha256 secret data` — the HMAC-SHA256 digest bytes (always 32 bytes,
  recorded by `hmacSha256_len`);
* `phDebug hash` — the `{:?}` (Debug) rendering of a `PasswordHash`;
* `phVerify hash rawPassword` — `PasswordHash::verify`. -/
structure CotEnv where
  hmacSha256 : List Nat → String → List Nat
  hmacSha256_len : ∀ key data, (hmacSha256 key data).length = 32
  phDebug : String → String
  phVerify : String → String → PasswordVerificationResult

/-- Model of `User::id()` (`src/auth.rs`): returns the fixed id, and hits
`unreachable!("DatabaseUser constructed with an unknown ID")` — modelled as
`none` — when the user was never persisted. -/
def User.idFn (u : User) : Option Int :=
  match u.id with
  | .fixed i => some i
  | .auto => none

/-! ### Reset tokens, from `src/forms/forgot_password.rs` -/

/-- `hex::encode`: two lowercase hex characters per byte. -/
def hexEncode (bs : List Nat) : List Char :=
  (bs.map fun b => [b36DigitChar (b / 16 % 16), b36DigitChar (b % 16)]).flatten

/-- The signed material of a reset token:
`format!("{}{:?}{}", user.id(), &user.password_hash(), ts)`. -/
def tokenData (env : CotEnv) (uid : Int) (passwordHash : String) (ts : Int) : String :=
  toString uid ++ env.phDebug passwordHash ++ toString ts

/-- The truncated signature of a reset token:
`hex::encode(&full)[..20]` of the HMAC-SHA256 digest (64 hex characters, so
taking 20 never falls outside the string). -/
def truncSig (env : CotEnv) (secret : List Nat) (data : String) : List Char :=
  (hexEncode (env.hmacSha256 secret data)).take 20

/-- The `ts as u64` cast in `make_token_with_timestamp`: two's-complement
reinterpretation of an `i64` as a `u64`. -/
def i64AsU64 (ts : Int) : Nat :=
  (ts % (2 ^ 64 : Int)).toNat

/-- Model of `ResetToken::make_token_with_timestamp`
(`src/forms/forgot_password.rs`): base36 of the timestamp, a dash, then the
first 20 hex characters of `HMAC-SHA256(secret, id ++ debug(hash) ++ ts)`.
`none` models the `unreachable!` panic inside `user.id()`. -/
def ResetToken.make_token_with_timestamp (env : CotEnv) (user : User)
    (secret : List Nat) (ts : Int) : Option String :=
  match User.idFn user with
  | none => none
  | some uid =>
    let ts_b36 := Base36.encode (i64AsU64 ts)
    let data := tokenData env uid user.password ts
    let short : String := ⟨truncSig env secret data⟩
    some (ts_b36 ++ "-" ++ short)

/-- Model of `ResetToken::make_token`: mint with the current clock reading,
passed here as the explicit argument `now` (`Utc::now().timestamp()`). -/
def ResetToken.make_token (env : CotEnv) (user : User) (secret : List Nat)
    (now : Int) : Option String :=
  ResetToken.make_token_with_timestamp env user secret now

/-- `str::split_once("-")`: split at the first `'-'`, `none` when absent. -/
def splitOnceDash : List Char → Option (List Char × List Char)
  | [] => none
  | c :: rest =>
    if c = '-' then some ([], rest)
    else
      match splitOnceDash rest with
      | some (l, r) => some (c :: l, r)
      | none => none

/-- Model of `ResetToken::check_token` (`src/forms/forgot_password.rs`).
The overall result is an `Option Bool`: `some b` is a normal boolean return,
`none` models a panic — the code calls
`i64::from_str_radix(ts_b36, 36).unwrap()`, which panics on an undecodable
timestamp part, and `user.id()`, which panics on an unpersisted user.
`now` is the explicit clock reading (`Utc::now().timestamp()`). -/
def ResetToken.check_token (env : CotEnv) (user : User) (token : String)
    (secret : List Nat) (timeout_secs : Int) (now : Int) : Option Bool :=
  match splitOnceDash token.data with
  | none => some false
  | some (ts_b36, sig) =>
    match i64FromStrRadix36 ⟨ts_b36⟩ with
    | none => none
    | some ts =>
      let age := now - ts
      if age < 0 ∨ age > timeout_secs then some false
      else
        match ResetToken.make_token_with_timestamp env user secret ts with
        | none => none
        | some expected =>
          some (decide (expected = (⟨ts_b36⟩ : String) ++ "-" ++ (⟨sig⟩ : String)))

/-! ### Authentication, from `src/auth.rs` -/

/-- The causes wrapped by `AuthError::backend_error` at the two places
`User::authenticate` produces errors: the `CreateUserError::UsernameTooLong`
validation failure and a store (database) failure. -/
inductive BackendCause where
  | usernameTooLong (len : Nat)
  | dbError
deriving DecidableEq, Repr

/-- The `cot::auth::AuthError` values actually produced by
`User::authenticate`: both failure paths go through
`AuthError::backend_error(..)`. -/
inductive AuthError where
  | backendError (cause : BackendCause)
deriving DecidableEq, Repr

/-- `UserCredentials` (`src/auth.rs`): ephemeral username / raw password. -/
structure UserCredentials where
  username : String
  password : String
deriving DecidableEq, Repr

/-- The external store: its rows, plus flags saying whether the lookup query
or the save call fails with a backend error. -/
structure Db where
  rows : List User
  lookupFails : Bool
  saveFails : Bool
deriving DecidableEq, Repr

/-- `query!(User, $username == username_limited).get(db)`: the row with the
matching (unique) username. -/
def Db.findByUsername (db : Db) (username : String) : Option User :=
  db.rows.find? fun u => u.username == username

/-- `user.save(db)`: replace the row with the same primary key. -/
def Db.saveUser (db : Db) (u : User) : Db :=
  { db with rows := db.rows.map fun r => if r.id = u.id then u else r }

/-- Model of `User::authenticate` (`src/auth.rs`). Returns the
`cot::auth::Result<Option<User>>` together with the store state after the
call. `LimitedString::<254>::new` rejects usernames longer than 254, and that
rejection — like a store failure — is wrapped in `AuthError::backend_error`. -/
def User.authenticate (env : CotEnv) (db : Db) (credentials : UserCredentials) :
    Except AuthError (Option User) × Db :=
  if 254 < credentials.username.length then
    (.error (.backendError (.usernameTooLong credentials.username.length)), db)
  else if db.lookupFails then
    (.error (.backendError .dbError), db)
  else
    match db.findByUsername credentials.username with
    | none => (.ok none, db)
    | some user =>
      match env.phVerify user.password credentials.password with
      | .ok => (.ok (some user), db)
      | .okObsolete newHash =>
        let user' : User := { user with password := newHash }
        if db.saveFails then (.error (.backendError .dbError), db)
        else (.ok (some user'), db.saveUser user')
      | .invalid => (.ok none, db)

/-! ### Concrete instances of the opaque collaborators, used to evaluate the
theorems on explicit inputs -/

/-- A concrete 32-byte keyed digest (stands in for HMAC-SHA256 when a theorem
is instantiated): it distinguishes inputs by their length. -/
def demoMac (_key : List Nat) (data : String) : List Nat :=
  data.length % 256 :: List.replicate 31 0

/-- A concrete collaborator record with a chosen `PasswordHash::verify`
behaviour; `phDebug` is the identity (injective). -/
def demoEnvWith (verify : String → String → PasswordVerificationResult) : CotEnv where
  hmacSha256 := demoMac
  hmacSha256_len := by intro k d; simp [demoMac]
  phDebug := fun h => h
  phVerify := verify

/-- Concrete collaborators whose `verify` always answers `Invalid`. -/
def demoEnv : CotEnv := demoEnvWith fun _ _ => .invalid

/-- Concrete collaborators whose `verify` recognises the raw password `"pw"`
against the stored hash `"hash1"` as valid-but-obsolete, upgrading it to
`"hash2"`. -/
def demoEnvObsolete : CotEnv :=
  demoEnvWith fun h p => if h = "hash1" ∧ p = "pw" then .okObsolete "hash2" else .invalid

/-- A persisted demo user (fixed primary key 1). -/
def demoUser : User :=
  { id := .fixed 1, username := "alice", name := "Alice",
    password := "hash1", email := "alice@example.com" }

/-- A demo user under construction: primary key still `Auto`. -/
def demoUserAuto : User :=
  { id := .auto, username := "bob", name := "Bob",
    password := "hash9", email := "bob@example.com" }

/-- A 255-character username, one character over the `LimitedString<254>`
bound. -/
def longUsername : String := ⟨List.replicate 255 'a'⟩

/-! ### Supporting lemmas: the base-36 alphabet -/

/-- Facts about the 36 digit characters, checked by evaluation: each maps back
to its value, none of them is `'-'`, `'+'` or `'_'`, each is a lowercase
base-36 digit, and only the digit 0 renders as `'0'`. -/
theorem b36DigitChar_props :
    ∀ d < 36, charDigitVal (b36DigitChar d) = some d ∧
      b36DigitChar d ≠ '-' ∧ b36DigitChar d ≠ '+' ∧ b36DigitChar d ≠ '_' ∧
      (('0' ≤ b36DigitChar d ∧ b36DigitChar d ≤ '9') ∨
        ('a' ≤ b36DigitChar d ∧ b36DigitChar d ≤ 'z')) ∧
      (b36DigitChar d = '0' ↔ d = 0) := by decide

/-- Any value produced by `charDigitVal` is a valid base-36 digit. -/
theorem charDigitVal_lt {c : Char} {d : Nat} (h : charDigitVal c = some d) : d < 36 := by
  unfold charDigitVal at h
  split_ifs at h with h1 h2 h3 <;> simp_all <;> omega

/-- The fuel-based digit function agrees with `Nat.digits 36` once the fuel
dominates the input. -/
theorem natDigits36_eq (fuel : Nat) : ∀ n : Nat, n ≤ fuel → natDigits36 fuel n = Nat.digits 36 n := by
  induction fuel with
  | zero =>
    intro n h
    have : n = 0 := Nat.le_zero.mp h
    subst this
    simp [natDigits36]
  | succ fuel ih =>
    intro n h
    rcases Nat.eq_zero_or_pos n with hn | hn
    · subst hn; simp [natDigits36]
    · have hdiv : n / 36 < n := Nat.div_lt_self hn (by norm_num)
      rw [natDigits36, if_neg (Nat.pos_iff_ne_zero.mp hn), ih (n / 36) (by omega),
        Nat.digits_def' (by norm_num : (1 : ℕ) < 36) hn]

/-- The character list behind `Base36.encode n` for nonzero `n`. -/
theorem encode_data (n : Nat) (hn : n ≠ 0) :
    (Base36.encode n).data = (Nat.digits 36 n).reverse.map b36DigitChar := by
  simp [Base36.encode, hn, natDigits36_eq n n le_rfl]

/-- Every character of `Base36.encode n` is one of the 36 digit characters. -/
theorem encode_chars (n : Nat) :
    ∀ c ∈ (Base36.encode n).data, ∃ d, d < 36 ∧ c = b36DigitChar d := by
  rcases eq_or_ne n 0 with rfl | hn
  · intro c hc
    have : c = '0' := by simpa [Base36.encode] using hc
    exact ⟨0, by norm_num, by simp [this]; decide⟩
  · rw [encode_data n hn]
    intro c hc
    simp only [List.mem_map, List.mem_reverse] at hc
    obtain ⟨d, hd, rfl⟩ := hc
    exact ⟨d, Nat.digits_lt_base (by norm_num) hd, rfl⟩

/-- `Base36.encode` never produces the empty string. -/
theorem encode_ne_nil (n : Nat) : (Base36.encode n).data ≠ [] := by
  rcases eq_or_ne n 0 with rfl | hn
  · decide
  · rw [encode_data n hn]
    simp [Nat.digits_ne_nil_iff_ne_zero.mpr hn]

/-- `Base36.encode` never contains a dash (so `split_once("-")` recovers the
timestamp part exactly). -/
theorem encode_no_dash (n : Nat) : '-' ∉ (Base36.encode n).data := by
  intro hc
  obtain ⟨d, hd, hcd⟩ := encode_chars n '-' hc
  exact (b36DigitChar_props d hd).2.1 hcd.symm

/-! ### Supporting lemmas: the digit folds and both parsers -/

/-- Splitting the strict digit fold across an append. -/
theorem strictValAux_append (l₁ l₂ : List Char) (acc : Nat) :
    strictValAux acc (l₁ ++ l₂) =
      match strictValAux acc l₁ with
      | some v => strictValAux v l₂
      | none => none := by
  induction l₁ generalizing acc with
  | nil => simp [strictValAux]
  | cons c rest ih =>
    simp only [List.cons_append, strictValAux]
    cases charDigitVal c with
    | none => rfl
    | some d => simp [ih]

/-- Horner evaluation: folding the rendered digits (most significant first)
recovers `Nat.ofDigits`. -/
theorem strictValAux_horner (l : List Nat) (hl : ∀ d ∈ l, d < 36) (acc : Nat) :
    strictValAux acc ((l.map b36DigitChar).reverse) =
      some (acc * 36 ^ l.length + Nat.ofDigits 36 l) := by
  induction l generalizing acc with
  | nil => simp [strictValAux]
  | cons d rest ih =>
    have hd : d < 36 := hl d (by simp)
    have hrest : ∀ x ∈ rest, x < 36 := fun x hx => hl x (by simp [hx])
    rw [List.map_cons, List.reverse_cons, strictValAux_append, ih hrest acc]
    show strictValAux (acc * 36 ^ rest.length + Nat.ofDigits 36 rest) [b36DigitChar d] = _
    rw [strictValAux, (b36DigitChar_props d hd).1]
    show some ((acc * 36 ^ rest.length + Nat.ofDigits 36 rest) * 36 + d) = _
    rw [Nat.ofDigits_cons]
    congr 1
    simp only [List.length_cons, pow_succ]
    ring

/-- The strict digit fold evaluates `Base36.encode n` back to `n`. -/
theorem strictValAux_encode (n : Nat) : strictValAux 0 (Base36.encode n).data = some n := by
  rcases eq_or_ne n 0 with rfl | hn
  · decide
  · rw [encode_data n hn, List.map_reverse,
      strictValAux_horner (Nat.digits 36 n) (fun d hd => Nat.digits_lt_base (by norm_num) hd) 0]
    simp [Nat.ofDigits_digits]

/-- Any value accepted by the strict digit fold is below `36 ^ length`. -/
theorem strictValAux_lt {l : List Char} :
    ∀ {acc v : Nat}, strictValAux acc l = some v → v < (acc + 1) * 36 ^ l.length := by
  induction l with
  | nil =>
    intro acc v h
    simp [strictValAux] at h
    simp [← h]
  | cons c rest ih =>
    intro acc v h
    rw [strictValAux] at h
    cases hc : charDigitVal c with
    | none => rw [hc] at h; cases h
    | some d =>
      rw [hc] at h
      have hd : d < 36 := charDigitVal_lt hc
      have h1 : v < (acc * 36 + d + 1) * 36 ^ rest.length := ih h
      have h2 : acc * 36 + d + 1 ≤ (acc + 1) * 36 := by
        have : (acc + 1) * 36 = acc * 36 + 36 := by ring
        omega
      calc v < (acc * 36 + d + 1) * 36 ^ rest.length := h1
        _ ≤ ((acc + 1) * 36) * 36 ^ rest.length := Nat.mul_le_mul_right _ h2
        _ = (acc + 1) * 36 ^ (c :: rest).length := by
            rw [List.length_cons, pow_succ]
            ring

/-- On underscore-free input the `num_bigint` scanning loop agrees with the
strict digit fold (success becomes `Ok`, failure becomes `Err(invalid)`). -/
theorem parseB36Core_eq (l : List Char) (h : '_' ∉ l) (acc : Nat) :
    parseB36Core l acc =
      match strictValAux acc l with
      | some v => .ok v
      | none => .error .invalid := by
  induction l generalizing acc with
  | nil => simp [parseB36Core, strictValAux]
  | cons c rest ih =>
    have hc : c ≠ '_' := by intro hcc; exact h (by simp [hcc])
    have hrest : '_' ∉ rest := fun hx => h (by simp [hx])
    rw [parseB36Core, if_neg hc, strictValAux]
    cases hcv : charDigitVal c with
    | none => rfl
    | some d =>
      simp only []
      rw [if_pos (charDigitVal_lt hcv), ih hrest]

/-- The leading-plus stripping is the identity when the head is not `'+'`. -/
theorem plusStrip_no_plus {c : Char} {rest : List Char} (h : c ≠ '+') :
    plusStrip (c :: rest) = c :: rest := by
  simp [plusStrip, h]

/-- `BigUint::from_str_radix` parses `Base36.encode n` back to `n`. -/
theorem fromStrRadix36_encode (n : Nat) : fromStrRadix36 (Base36.encode n) = .ok n := by
  cases hd : (Base36.encode n).data with
  | nil => exact absurd hd (encode_ne_nil n)
  | cons c rest =>
    have hc : ∃ d, d < 36 ∧ c = b36DigitChar d :=
      encode_chars n c (by rw [hd]; exact List.mem_cons_self c rest)
    obtain ⟨d, hdlt, rfl⟩ := hc
    have hplus : b36DigitChar d ≠ '+' := (b36DigitChar_props d hdlt).2.2.1
    have hunder : b36DigitChar d ≠ '_' := (b36DigitChar_props d hdlt).2.2.2.1
    have hnounder : '_' ∉ b36DigitChar d :: rest := by
      rw [← hd]
      intro hx
      obtain ⟨e, helt, hee⟩ := encode_chars n '_' hx
      exact (b36DigitChar_props e helt).2.2.2.1 hee.symm
    rw [fromStrRadix36, hd, plusStrip_no_plus hplus]
    simp only []
    rw [if_neg hunder, parseB36Core_eq _ hnounder, ← hd, strictValAux_encode n]

/-- Roundtrip of the codec in `src/utils.rs`: decode after encode gives
`Ok(Some n))` for every `u64` value. -/
theorem decode_encode (n : Nat) (h : n < 2 ^ 64) :
    Base36.decode (Base36.encode n) = .ok (some n) := by
  rw [Base36.decode, fromStrRadix36_encode]
  show Except.ok (if n < 2 ^ 64 then some n else none) = _
  rw [if_pos h]

/-- `i64::from_str_radix(·, 36)` parses `Base36.encode n` back to `n` for
values in the `i64` range. -/
theorem i64FromStrRadix36_encode (n : Nat) (h : n < 2 ^ 63) :
    i64FromStrRadix36 (Base36.encode n) = some (n : Int) := by
  cases hd : (Base36.encode n).data with
  | nil => exact absurd hd (encode_ne_nil n)
  | cons c rest =>
    have hc : ∃ d, d < 36 ∧ c = b36DigitChar d :=
      encode_chars n c (by rw [hd]; exact List.mem_cons_self c rest)
    obtain ⟨d, hdlt, rfl⟩ := hc
    have hplus : b36DigitChar d ≠ '+' := (b36DigitChar_props d hdlt).2.2.1
    have hdash : b36DigitChar d ≠ '-' := (b36DigitChar_props d hdlt).2.1
    rw [i64FromStrRadix36, hd]
    simp only []
    rw [if_neg hplus, if_neg hdash, i64Digits]
    have hval : strictValAux 0 (b36DigitChar d :: rest) = some n := by
      rw [← hd]; exact strictValAux_encode n
    rw [hval]
    have hle : (n : Int) ≤ 2 ^ 63 - 1 := by
      have : (n : Int) < 2 ^ 63 := by exact_mod_cast h
      omega
    simp only []
    rw [if_neg (by simp), if_pos hle]

/-- Splitting at the first dash of `l₁ ++ '-' :: l₂` when `l₁` is dash-free. -/
theorem splitOnceDash_append (l₁ l₂ : List Char) (h : '-' ∉ l₁) :
    splitOnceDash (l₁ ++ '-' :: l₂) = some (l₁, l₂) := by
  induction l₁ with
  | nil => simp [splitOnceDash]
  | cons c rest ih =>
    have hc : c ≠ '-' := by intro hcc; exact h (by simp [hcc])
    have hrest : '-' ∉ rest := fun hx => h (by simp [hx])
    simp [splitOnceDash, hc, ih hrest]

/-- The `ts as u64` cast is the identity on the common range. -/
theorem i64AsU64_eq {ts : Int} (h0 : 0 ≤ ts) (h1 : ts < 2 ^ 64) : i64AsU64 ts = ts.toNat := by
  rw [i64AsU64, Int.emod_eq_of_lt h0 h1]

/-! ### Supporting lemmas: composing mint and verify -/

/-- The explicit shape of the token minted for a persisted user. -/
theorem make_token_with_timestamp_eq (env : CotEnv) (user : User) (uid : Int)
    (secret : List Nat) (ts : Int) (hid : user.id = .fixed uid) :
    ResetToken.make_token_with_timestamp env user secret ts =
      some (Base36.encode (i64AsU64 ts) ++ "-" ++
        (⟨truncSig env secret (tokenData env uid user.password ts)⟩ : String)) := by
  have hidfn : User.idFn user = some uid := by rw [User.idFn, hid]
  rw [ResetToken.make_token_with_timestamp, hidfn]

/-- Core composition fact: verifying (against `user'`) a token minted for
`user` at timestamp `ts`, at a verification time inside the window, succeeds
exactly when the two truncated signatures agree. -/
theorem check_of_make (env : CotEnv) (user user' : User) (uid : Int)
    (secret : List Nat) (timeout ts now : Int)
    (hid : user.id = .fixed uid) (hid' : user'.id = .fixed uid)
    (h0 : 0 ≤ ts) (h1 : ts < 2 ^ 63)
    (hage0 : 0 ≤ now - ts) (hage1 : now - ts ≤ timeout) :
    ResetToken.check_token env user'
        ((ResetToken.make_token_with_timestamp env user secret ts).getD "")
        secret timeout now =
      some (decide (truncSig env secret (tokenData env uid user'.password ts) =
        truncSig env secret (tokenData env uid user.password ts))) := by
  have hmk := make_token_with_timestamp_eq env user uid secret ts hid
  have hmk' := make_token_with_timestamp_eq env user' uid secret ts hid'
  rw [hmk]
  simp only [Option.getD_some]
  rw [ResetToken.check_token]
  have hdata : (Base36.encode (i64AsU64 ts) ++ "-" ++
      (⟨truncSig env secret (tokenData env uid user.password ts)⟩ : String)).data =
      (Base36.encode (i64AsU64 ts)).data ++
        '-' :: truncSig env secret (tokenData env uid user.password ts) := by
    simp [String.data_append]
  rw [hdata, splitOnceDash_append _ _ (encode_no_dash _)]
  simp only []
  have hts : i64FromStrRadix36 (⟨(Base36.encode (i64AsU64 ts)).data⟩ : String) = some ts := by
    have heta : (⟨(Base36.encode (i64AsU64 ts)).data⟩ : String) = Base36.encode (i64AsU64 ts) := rfl
    rw [heta, i64AsU64_eq h0 (by omega), i64FromStrRadix36_encode ts.toNat (by omega)]
    congr 1
    omega
  rw [hts]
  simp only []
  rw [if_neg (by omega : ¬(now - ts < 0 ∨ now - ts > timeout))]
  rw [hmk']
  simp only []
  congr 1
  rw [decide_eq_decide]
  constructor
  · intro h
    have := congrArg String.data h
    simp only [String.data_append, List.append_assoc] at this
    have h1 := List.append_cancel_left this
    simpa using h1
  · intro h
    apply String.ext
    simp only [String.data_append, List.append_assoc]
    simp [h]

/-- Distinct password hashes give distinct signed material — the id and
timestamp parts cancel — provided the Debug rendering of hashes is
injective. -/
theorem tokenData_ne (env : CotEnv)
    (hinj : ∀ a b, env.phDebug a = env.phDebug b → a = b)
    (uid : Int) (h₁ h₂ : String) (ts : Int) (hne : h₁ ≠ h₂) :
    tokenData env uid h₁ ts ≠ tokenData env uid h₂ ts := by
  intro h
  apply hne
  apply hinj
  have hdata := congrArg String.data h
  simp only [tokenData, String.data_append, List.append_assoc] at hdata
  have h1 := List.append_cancel_left hdata
  have h2 := List.append_cancel_right h1
  exact String.ext h2

/-! ### The claims -/

/-- C1: the claim states that `check_token` returns `false` and never panics
when the part before the first `'-'` of the token is not a decodable base-36
timestamp. The code instead calls `.unwrap()` on the result of
`i64::from_str_radix` and panics there (modelled as `none`): this evaluation
shows the panic both for an invalid character (`"!"`) and for a numeral
overflowing `i64` (fourteen `z`s), for a perfectly ordinary user, secret and
timeout. -/
theorem check_token_undecodable_timestamp_panics :
    ResetToken.check_token demoEnv demoUser "!-aaaa" [7] 3600 1000 = none ∧
    ResetToken.check_token demoEnv demoUser "zzzzzzzzzzzzzz-aaaa" [7] 3600 1000 = none := by
  decide

/-- C2: for every persisted user (fixed id), every secret, and every timeout
strictly greater than zero, a token minted by `make_token` at clock reading
`now` verifies with `check_token` at that same clock reading (age 0). -/
theorem make_then_check_token_succeeds (env : CotEnv) (user : User) (uid : Int)
    (secret : List Nat) (timeout now : Int)
    (hid : user.id = .fixed uid) (hnow0 : 0 ≤ now) (hnow1 : now < 2 ^ 63)
    (htimeout : 0 < timeout) :
    ResetToken.check_token env user
      ((ResetToken.make_token env user secret now).getD "") secret timeout now
      = some true := by
  rw [ResetToken.make_token,
    check_of_make env user user uid secret timeout now now hid hid hnow0 hnow1
      (by omega) (by omega)]
  simp

/-- Witness for C2 at a concrete user, secret, timeout and clock. -/
theorem make_then_check_token_succeeds_witness :
    ResetToken.check_token demoEnv demoUser
      ((ResetToken.make_token demoEnv demoUser [7] 0).getD "") [7] 3600 0
      = some true :=
  make_then_check_token_succeeds demoEnv demoUser 1 [7] 3600 0 rfl
    (by decide) (by decide) (by decide)

/-- C3: a token minted before a password-hash change no longer verifies
afterwards. With the Debug rendering of hashes injective, replacing the hash
genuinely changes the signed material (first conjunct, unconditional), and
whenever the truncated HMAC signatures of the two distinct materials differ —
the cryptographic expectation, stated as the explicit hypothesis `hsig` —
`check_token` on the updated user answers `false`, for every timeout and any
verification time within the window. -/
theorem check_token_fails_after_hash_change (env : CotEnv)
    (hinj : ∀ a b, env.phDebug a = env.phDebug b → a = b)
    (user : User) (uid : Int) (newHash : String) (secret : List Nat)
    (timeout ts now : Int)
    (hid : user.id = .fixed uid)
    (hne : newHash ≠ user.password)
    (h0 : 0 ≤ ts) (h1 : ts < 2 ^ 63)
    (hage0 : 0 ≤ now - ts) (hage1 : now - ts ≤ timeout)
    (hsig : truncSig env secret (tokenData env uid newHash ts) ≠
      truncSig env secret (tokenData env uid user.password ts)) :
    tokenData env uid newHash ts ≠ tokenData env uid user.password ts ∧
    ResetToken.check_token env { user with password := newHash }
      ((ResetToken.make_token_with_timestamp env user secret ts).getD "")
      secret timeout now = some false := by
  refine ⟨tokenData_ne env hinj uid newHash user.password ts hne, ?_⟩
  have hid' : ({ user with password := newHash } : User).id = .fixed uid := hid
  rw [check_of_make env user { user with password := newHash } uid secret timeout ts now
    hid hid' h0 h1 hage0 hage1]
  simp [hsig]

/-- Witness for C3: mint for the demo user, replace the hash, verification
fails. -/
theorem check_token_fails_after_hash_change_witness :
    tokenData demoEnv 1 "h2long" 0 ≠ tokenData demoEnv 1 demoUser.password 0 ∧
    ResetToken.check_token demoEnv { demoUser with password := "h2long" }
      ((ResetToken.make_token_with_timestamp demoEnv demoUser [7] 0).getD "")
      [7] 3600 0 = some false :=
  check_token_fails_after_hash_change demoEnv (fun _ _ h => h) demoUser 1 "h2long" [7]
    3600 0 0 rfl (by decide) (by decide) (by decide) (by decide) (by decide) (by decide)

/-- C4: once the embedded timestamp decodes, `check_token` answers `false`
whenever the age `now - ts` is strictly negative (future-dated token) or
strictly greater than the timeout — for every user, secret and signature
part, since the age test precedes the signature comparison. -/
theorem check_token_rejects_outside_window (env : CotEnv) (user : User)
    (secret : List Nat) (timeout now ts : Int) (token : String)
    (tsPart sigPart : List Char)
    (hsplit : splitOnceDash token.data = some (tsPart, sigPart))
    (hts : i64FromStrRadix36 ⟨tsPart⟩ = some ts)
    (hage : now - ts < 0 ∨ now - ts > timeout) :
    ResetToken.check_token env user token secret timeout now = some false := by
  rw [ResetToken.check_token, hsplit]
  simp only []
  rw [hts]
  simp only []
  rw [if_pos hage]

/-- Witness for C4: a future-dated token (`"zz"` decodes to 1295, the clock
reads 0) is rejected. -/
theorem check_token_rejects_outside_window_witness :
    ResetToken.check_token demoEnv demoUser "zz-aaaa" [7] 3600 0 = some false :=
  check_token_rejects_outside_window demoEnv demoUser [7] 3600 0 1295 "zz-aaaa"
    ['z', 'z'] ['a', 'a', 'a', 'a'] (by decide) (by decide) (by decide)

/-- C5: the Base36 codec roundtrips every `u64` value — decode after encode
is `Ok(Some n)` — and `encode` produces the shortest lowercase base-36
numeral: every character is in `0-9a-z`, there is no leading zero, and no
shorter digit string evaluates to `n` under the digit fold. -/
theorem base36_roundtrip_shortest (n : Nat) (h : n < 2 ^ 64) :
    Base36.decode (Base36.encode n) = .ok (some n) ∧
    (∀ c ∈ (Base36.encode n).data,
      ('0' ≤ c ∧ c ≤ '9') ∨ ('a' ≤ c ∧ c ≤ 'z')) ∧
    (n ≠ 0 → (Base36.encode n).data.head? ≠ some '0') ∧
    (∀ s : String, s.data ≠ [] → strictValAux 0 s.data = some n →
      (Base36.encode n).length ≤ s.length) := by
  refine ⟨decode_encode n h, ?_, ?_, ?_⟩
  · intro c hc
    obtain ⟨d, hd, rfl⟩ := encode_chars n c hc
    exact (b36DigitChar_props d hd).2.2.2.2.1
  · intro hn hhead
    rcases List.eq_nil_or_concat (Nat.digits 36 n) with hnil | ⟨L, a, hla⟩
    · exact (Nat.digits_ne_nil_iff_ne_zero.mpr hn) hnil
    · rw [List.concat_eq_append] at hla
      have ha36 : a < 36 := Nat.digits_lt_base (by norm_num)
        (by rw [hla]; exact List.mem_append_right _ (by simp))
      have hfa : b36DigitChar a = '0' := by
        rw [encode_data n hn, hla] at hhead
        simpa [List.reverse_append] using hhead
      have ha0 : a = 0 := ((b36DigitChar_props a ha36).2.2.2.2.2).mp hfa
      have hne : Nat.digits 36 n ≠ [] := Nat.digits_ne_nil_iff_ne_zero.mpr hn
      have hlast := Nat.getLast_digit_ne_zero 36 hn
      have h1 : (Nat.digits 36 n).getLast? =
          some ((Nat.digits 36 n).getLast hne) := List.getLast?_eq_getLast _ hne
      have h2 : (Nat.digits 36 n).getLast? = some a := by
        rw [hla]; exact List.getLast?_concat L
      have : (Nat.digits 36 n).getLast hne = a := by
        rw [h1] at h2; exact (Option.some.injEq _ _).mp h2
      exact hlast (this.trans ha0)
  · intro s hs hval
    have hlt : n < 36 ^ s.data.length := by
      have := strictValAux_lt hval
      simpa using this
    have hslen : s.length = s.data.length := rfl
    rcases eq_or_ne n 0 with rfl | hn
    · have h1 : 0 < s.data.length := List.length_pos.mpr hs
      have h2 : (Base36.encode 0).length = 1 := by decide
      omega
    · have hlen : (Base36.encode n).length = (Nat.digits 36 n).length := by
        show (Base36.encode n).data.length = _
        rw [encode_data n hn]
        simp
      by_contra hcon
      push_neg at hcon
      have hgap : s.data.length + 1 ≤ (Nat.digits 36 n).length := by omega
      have hp1 : (36 : ℕ) ^ (s.data.length + 1) ≤ 36 ^ (Nat.digits 36 n).length :=
        Nat.pow_le_pow_right (by norm_num) hgap
      have hp2 : (36 : ℕ) ^ (Nat.digits 36 n).length ≤ 36 * n :=
        Nat.base_pow_length_digits_le 36 n (by norm_num) hn
      have hp3 : 36 * 36 ^ s.data.length ≤ 36 * n := by
        calc 36 * 36 ^ s.data.length = 36 ^ (s.data.length + 1) := by rw [pow_succ]; ring
          _ ≤ 36 ^ (Nat.digits 36 n).length := hp1
          _ ≤ 36 * n := hp2
      have : 36 ^ s.data.length ≤ n := Nat.le_of_mul_le_mul_left hp3 (by norm_num)
      omega

/-- Witness for C5 at `n = 36` (`encode 36 = "10"`). -/
theorem base36_roundtrip_shortest_witness :
    Base36.decode (Base36.encode 36) = .ok (some 36) ∧
    (∀ c ∈ (Base36.encode 36).data,
      ('0' ≤ c ∧ c ≤ '9') ∨ ('a' ≤ c ∧ c ≤ 'z')) ∧
    ((36 : Nat) ≠ 0 → (Base36.encode 36).data.head? ≠ some '0') ∧
    (∀ s : String, s.data ≠ [] → strictValAux 0 s.data = some 36 →
      (Base36.encode 36).length ≤ s.length) :=
  base36_roundtrip_shortest 36 (by norm_num)

/-- C6 counterexample: the claim says `decode("")` and `decode("!!")` each
return a none result; in the code both return a typed parse `Err`
(`ParseBigIntError`), not an `Ok(None)`. -/
theorem base36_decode_empty_invalid_not_none :
    Base36.decode "" ≠ .ok none ∧ Base36.decode "!!" ≠ .ok none := by
  decide

/-- C6 as amended: `decode("")` is `Err(empty)` and `decode("!!")` is
`Err(invalid)` — typed error returns, not none results — while decode of a
numeral overflowing `u64` (thirteen `z`s, valued `36^13 - 1`) is `Ok(None)`;
all three are ordinary returns of the total model function, so none raises
or panics. -/
theorem base36_decode_error_cases :
    Base36.decode "" = .error .empty ∧
    Base36.decode "!!" = .error .invalid ∧
    Base36.decode "zzzzzzzzzzzzz" = .ok none := by
  decide

/-- C7: when the stored user's hash verifies as `OkObsolete(newHash)`,
`authenticate` replaces the user's hash field with `newHash`, persists the
updated record via the store, and returns `Ok(Some user))` carrying the
upgraded hash; and when that persistence fails, the failure propagates as a
backend error. -/
theorem authenticate_obsolete_rehash (env : CotEnv) (db : Db)
    (credentials : UserCredentials) (user : User) (newHash : String)
    (hlen : credentials.username.length ≤ 254)
    (hlookup : db.lookupFails = false)
    (hfind : db.findByUsername credentials.username = some user)
    (hver : env.phVerify user.password credentials.password = .okObsolete newHash) :
    (db.saveFails = false →
      User.authenticate env db credentials =
        (.ok (some { user with password := newHash }),
          db.saveUser { user with password := newHash })) ∧
    (db.saveFails = true →
      User.authenticate env db credentials = (.error (.backendError .dbError), db)) := by
  constructor <;> intro hsave <;>
    simp [User.authenticate, if_neg (by omega : ¬254 < credentials.username.length),
      hlookup, hfind, hver, hsave]

/-- Witness for C7: the demo user's legacy hash `"hash1"` is upgraded to
`"hash2"` in both the returned user and the stored row. -/
theorem authenticate_obsolete_rehash_witness :
    User.authenticate demoEnvObsolete ⟨[demoUser], false, false⟩ ⟨"alice", "pw"⟩ =
      (.ok (some { demoUser with password := "hash2" }),
        Db.saveUser ⟨[demoUser], false, false⟩ { demoUser with password := "hash2" }) :=
  (authenticate_obsolete_rehash demoEnvObsolete ⟨[demoUser], false, false⟩
    ⟨"alice", "pw"⟩ demoUser "hash2" (by decide) rfl (by decide) (by decide)).1 rfl

/-- C8: `authenticate` returns `Ok(None)` — not an error — both when no user
with the given username exists and when the password verifies as `Invalid`;
the two outcomes are the same value, and in neither case does the store
change. -/
theorem authenticate_negative_indistinguishable (env : CotEnv) (db : Db)
    (credentials : UserCredentials)
    (hlen : credentials.username.length ≤ 254)
    (hlookup : db.lookupFails = false) :
    (db.findByUsername credentials.username = none →
      User.authenticate env db credentials = (.ok none, db)) ∧
    (∀ user, db.findByUsername credentials.username = some user →
      env.phVerify user.password credentials.password = .invalid →
      User.authenticate env db credentials = (.ok none, db)) := by
  constructor
  · intro hfind
    simp [User.authenticate, if_neg (by omega : ¬254 < credentials.username.length),
      hlookup, hfind]
  · intro user hfind hver
    simp [User.authenticate, if_neg (by omega : ¬254 < credentials.username.length),
      hlookup, hfind, hver]

/-- Witness for C8: an unknown username and a wrong password for the demo
user produce the identical `(Ok(None), unchanged store)` outcome. -/
theorem authenticate_negative_indistinguishable_witness :
    User.authenticate demoEnv ⟨[demoUser], false, false⟩ ⟨"carol", "pw"⟩ =
      (.ok none, ⟨[demoUser], false, false⟩) ∧
    User.authenticate demoEnv ⟨[demoUser], false, false⟩ ⟨"alice", "wrong"⟩ =
      (.ok none, ⟨[demoUser], false, false⟩) :=
  ⟨(authenticate_negative_indistinguishable demoEnv ⟨[demoUser], false, false⟩
      ⟨"carol", "pw"⟩ (by decide) rfl).1 (by decide),
   (authenticate_negative_indistinguishable demoEnv ⟨[demoUser], false, false⟩
      ⟨"alice", "wrong"⟩ (by decide) rfl).2 demoUser (by decide) (by decide)⟩

/-- C9 counterexample: the claim says an oversized username fails with a
validation variant (`InvalidCredentialsFormat`) distinct from the
`BackendError` variant used for store failures. In the code the rejection is
`AuthError::backend_error(CreateUserError::UsernameTooLong(255))` — the very
same `backendError` variant that a store failure produces (second
conjunct). -/
theorem authenticate_oversized_username_not_distinct :
    (User.authenticate demoEnv ⟨[], false, false⟩ ⟨longUsername, "pw"⟩).1 =
      .error (.backendError (.usernameTooLong 255)) ∧
    (User.authenticate demoEnv ⟨[], true, false⟩ ⟨"bob", "pw"⟩).1 =
      .error (.backendError .dbError) := by
  decide

/-- C9 as amended: a username longer than the store's 254-character key bound
makes `authenticate` fail with a typed error — `backend_error` wrapping
`UsernameTooLong(len)` — which is distinct from the `Ok(None)`
wrong-credentials result but uses the same `BackendError` variant as store
failures, and the store is untouched. -/
theorem authenticate_oversized_username_backend_error (env : CotEnv) (db : Db)
    (credentials : UserCredentials) (h : 254 < credentials.username.length) :
    User.authenticate env db credentials =
      (.error (.backendError (.usernameTooLong credentials.username.length)), db) := by
  rw [User.authenticate, if_pos h]

/-- Witness for C9 (amended) at a concrete 255-character username. -/
theorem authenticate_oversized_username_backend_error_witness :
    User.authenticate demoEnv ⟨[demoUser], false, false⟩ ⟨longUsername, "pw"⟩ =
      (.error (.backendError (.usernameTooLong 255)), ⟨[demoUser], false, false⟩) :=
  authenticate_oversized_username_backend_error demoEnv ⟨[demoUser], false, false⟩
    ⟨longUsername, "pw"⟩ (by decide)

/-- C10: `User::id()` hits its `unreachable!` branch — a panic, modelled as
`none` — exactly on a user whose id field is still `Auto` (constructed but
not persisted), and so do `make_token_with_timestamp` and `make_token`,
which call it; for every user with a fixed id it returns that id. -/
theorem user_id_panics_iff_auto :
    (∀ (u : User) (i : Int), u.id = .fixed i → User.idFn u = some i) ∧
    (∀ u : User, u.id = .auto →
      User.idFn u = none ∧
      ∀ (env : CotEnv) (secret : List Nat) (ts : Int),
        ResetToken.make_token_with_timestamp env u secret ts = none ∧
        ResetToken.make_token env u secret ts = none) := by
  constructor
  · intro u i h
    rw [User.idFn, h]
  · intro u h
    have hnone : User.idFn u = none := by rw [User.idFn, h]
    refine ⟨hnone, fun env secret ts => ⟨?_, ?_⟩⟩
    · rw [ResetToken.make_token_with_timestamp, hnone]
    · rw [ResetToken.make_token, ResetToken.make_token_with_timestamp, hnone]

/-- Witness for C10: the persisted demo user yields id 1; the unpersisted one
makes `id()` and both minting functions panic. -/
theorem user_id_panics_iff_auto_witness :
    User.idFn demoUser = some 1 ∧ User.idFn demoUserAuto = none ∧
    ResetToken.make_token_with_timestamp demoEnv demoUserAuto [7] 5 = none ∧
    ResetToken.make_token demoEnv demoUserAuto [7] 5 = none :=
  ⟨user_id_panics_iff_auto.1 demoUser 1 rfl,
   (user_id_panics_iff_auto.2 demoUserAuto rfl).1,
   ((user_id_panics_iff_auto.2 demoUserAuto rfl).2 demoEnv [7] 5).1,
   ((user_id_panics_iff_auto.2 demoUserAuto rfl).2 demoEnv [7] 5).2⟩

end BasicAuth
